import Mathlib

/-!
Verification of the Quote Correlation Engine of the `agente` repository
(package `comprador` and its collaborators), against its natural-language
specification.

The Go code is shallowly embedded: the SQLite-backed stores become in-memory
lists (one list element per row, in insertion order), `time.Time` becomes a
`Nat` tick count in nanoseconds, `time.Duration` becomes a `Nat` in
nanoseconds, and the external collaborators (Claude capability calls, the
WhatsApp sender, concurrent store mutation by the response correlator) become
explicit oracles passed as function arguments.  `float64` fields (`Qty`,
`Price`, `Rating`, `TotalPrice`) are only ever copied, never computed with, on
the verified paths, so they are embedded as `Int`.  Fallible Go calls
(returning `error`) become `Except String` values.
-/

namespace Agente

/-- One nanosecond-denominated second, mirroring Go `time.Second`. -/
def timeSecond : Nat := 1000000000

/-- Go `time.Minute`. -/
def timeMinute : Nat := 60 * timeSecond

/-- `suppliers.Supplier` (src/comprador/suppliers/store.go). -/
structure Supplier where
  id : String
  name : String
  phone : String
  city : String
  categories : List String
  rating : Int
  active : Bool
deriving Repr, DecidableEq

/-- `suppliers.QuoteItem` (src/comprador/suppliers/store.go). -/
structure QuoteItem where
  name : String
  qty : Int
  unit : String
  price : Int
deriving Repr, DecidableEq

/-- `suppliers.Quote` (src/comprador/suppliers/store.go): one quote unit,
i.e. one row of the `quotes` table. `respondedAt = none` embeds a NULL
`responded_at` column. -/
structure Quote where
  id : String
  requestID : String
  supplierID : String
  items : List QuoteItem
  response : String
  price : Int
  status : String
  createdAt : Nat
  respondedAt : Option Nat
deriving Repr, DecidableEq

/-- `comprador.ParsedItem` (src/unnamed/part_002). -/
structure ParsedItem where
  name : String
  qty : Int
  unit : String
  note : String
deriving Repr, DecidableEq

/-- `comprador.QuoteRequest` (src/unnamed/part_002). -/
structure QuoteRequest where
  id : String
  description : String
  items : List ParsedItem
  urgent : Bool
  timeout : Nat
deriving Repr, DecidableEq

/-- `comprador.QuoteComparison` (src/unnamed/part_002). -/
structure QuoteComparison where
  recommendation : String
  bestSupplier : String
  totalPrice : Int
  table : String
deriving Repr, DecidableEq

instance : Inhabited QuoteComparison :=
  ⟨{ recommendation := "", bestSupplier := "", totalPrice := 0, table := "" }⟩

/-- `memory.PurchaseRecord` (src/comprador/memory/store.go), restricted to the
fields `Agent.Quote` populates. -/
structure PurchaseRecord where
  description : String
  items : List String
  chosenSupplier : String
  totalPrice : Int
deriving Repr, DecidableEq

/-- Observable side effects of the engine, used to state which collaborators a
code path touches (message sends, store writes, store polls, the ranking
capability, the purchase memory). -/
inductive Event where
  | composed (supplierID : String)
  | sent (phone msg : String)
  | createdQuote (q : Quote)
  | polled (requestID : String)
  | compared (requestID : String)
  | savedMemory (r : PurchaseRecord)
deriving Repr, DecidableEq

/-- `QuoteStore.CreateQuote` (src/comprador/suppliers/store.go:177-188): the
INSERT writes id, request_id, supplier_id, items and created_at from the
argument but hard-codes `status = 'pending'` and leaves response, price and
responded_at NULL (read back as "", 0 and `none`).  The caller (`SendQuotes`)
always supplies a fresh non-empty id, so the uuid-generation branch for an
empty id is not modelled. -/
def createQuote (store : List Quote) (q : Quote) : List Quote :=
  store ++ [{ q with status := "pending", response := "", price := 0, respondedAt := none }]

/-- `QuoteStore.UpdateQuoteResponse` (src/comprador/suppliers/store.go:191-198):
UPDATE of response, price, `status = 'received'` and responded_at on every row
whose id matches. -/
def updateQuoteResponse (store : List Quote) (id response : String) (price : Int)
    (now : Nat) : List Quote :=
  store.map fun q =>
    if q.id = id then
      { q with response := response, price := price, status := "received",
               respondedAt := some now }
    else q

/-- `QuoteStore.PendingByRequest` (src/comprador/suppliers/store.go:201-223):
SELECT of every quote row of the given request (despite the name it does not
filter on status). -/
def pendingByRequest (store : List Quote) (requestID : String) : List Quote :=
  store.filter fun q => q.requestID = requestID

/-- The quote unit `SendQuotes` (src/unnamed/part_002:130-143) builds for one
supplier: a fresh id, the request and supplier ids, the request's items
projected to `QuoteItem` (price unset), creation time `now`.  Fresh uuids are
embedded as a counter `n` rendered into the id. -/
def pendingUnit (req : QuoteRequest) (sup : Supplier) (now : Nat) (n : Nat) : Quote :=
  { id := "q" ++ toString n
    requestID := req.id
    supplierID := sup.id
    items := req.items.map fun it => { name := it.name, qty := it.qty, unit := it.unit, price := 0 }
    response := ""
    price := 0
    status := "pending"
    createdAt := now
    respondedAt := none }

/-- Result of a dispatch run: the Go `error` return, the quotes table after the
run, the uuid counter, and the emitted events. -/
structure DispatchResult where
  res : Except String Unit
  store : List Quote
  ctr : Nat
  events : List Event
deriving Repr

/-- `QuoteManager.SendQuotes` (src/unnamed/part_002:119-146).  `compose`
embeds `composeMessage` (a Claude call, may fail), `send` embeds
`qm.sender.Send` (may fail).  For each supplier in order: compose, send, then
persist a pending quote unit; the first compose or send error aborts the loop
and is returned, leaving the units already created in the store.  The
in-memory embedding of the INSERT cannot fail, so the `save quote` error
branch of the Go code is not reachable here. -/
def sendQuotes (compose : Supplier → Except String String)
    (send : String → String → Except String Unit)
    (now : Nat) (req : QuoteRequest) (sups : List Supplier)
    (store : List Quote) (ctr : Nat) : DispatchResult :=
  match sups with
  | [] => ⟨.ok (), store, ctr, []⟩
  | sup :: rest =>
    match compose sup with
    | .error e => ⟨.error ("compose message for " ++ sup.name ++ ": " ++ e), store, ctr, []⟩
    | .ok msg =>
      match send sup.phone msg with
      | .error e =>
          ⟨.error ("send to " ++ sup.name ++ ": " ++ e), store, ctr, [.composed sup.id]⟩
      | .ok _ =>
        let q := pendingUnit req sup now ctr
        let r := sendQuotes compose send now req rest (createQuote store q) (ctr + 1)
        ⟨r.res, r.store, r.ctr,
          .composed sup.id :: .sent sup.phone msg :: .createdQuote q :: r.events⟩

/-- The quote units a fully successful dispatch of `sups` appends, starting
from uuid counter `ctr`. -/
def dispatchUnits (req : QuoteRequest) (now : Nat) : List Supplier → Nat → List Quote
  | [], _ => []
  | sup :: rest, n => pendingUnit req sup now n :: dispatchUnits req now rest (n + 1)

/-- The events a fully successful dispatch of `sups` emits, when `compose`
returns `msgOf s` for each supplier `s`. -/
def dispatchEvents (req : QuoteRequest) (now : Nat) (msgOf : Supplier → String) :
    List Supplier → Nat → List Event
  | [], _ => []
  | sup :: rest, n =>
      .composed sup.id :: .sent sup.phone (msgOf sup) ::
        .createdQuote (pendingUnit req sup now n) :: dispatchEvents req now msgOf rest (n + 1)

theorem createQuote_pendingUnit (store : List Quote) (req : QuoteRequest)
    (sup : Supplier) (now n : Nat) :
    createQuote store (pendingUnit req sup now n) = store ++ [pendingUnit req sup now n] := rfl

/-- A dispatch in which every supplier's compose and send succeed returns ok,
appends exactly the expected units and emits exactly the expected events. -/
theorem sendQuotes_all_ok (compose : Supplier → Except String String)
    (send : String → String → Except String Unit) (msgOf : Supplier → String)
    (now : Nat) (req : QuoteRequest) (sups : List Supplier)
    (store : List Quote) (ctr : Nat)
    (h : ∀ s ∈ sups, compose s = .ok (msgOf s) ∧ send s.phone (msgOf s) = .ok ()) :
    sendQuotes compose send now req sups store ctr =
      ⟨.ok (), store ++ dispatchUnits req now sups ctr, ctr + sups.length,
        dispatchEvents req now msgOf sups ctr⟩ := by
  induction sups generalizing store ctr with
  | nil => simp [sendQuotes, dispatchUnits, dispatchEvents]
  | cons sup rest ih =>
    obtain ⟨hc, hs⟩ := h sup (List.mem_cons_self _ _)
    have hrest : ∀ s ∈ rest, compose s = .ok (msgOf s) ∧ send s.phone (msgOf s) = .ok () :=
      fun s hs => h s (List.mem_cons_of_mem _ hs)
    simp only [sendQuotes, hc, hs, createQuote_pendingUnit,
      ih (store ++ [pendingUnit req sup now ctr]) (ctr + 1) hrest,
      dispatchUnits, dispatchEvents, List.length_cons, DispatchResult.mk.injEq]
    refine ⟨trivial, by simp, by omega, trivial⟩

theorem dispatchUnits_length (req : QuoteRequest) (now : Nat) (sups : List Supplier)
    (ctr : Nat) : (dispatchUnits req now sups ctr).length = sups.length := by
  induction sups generalizing ctr with
  | nil => rfl
  | cons sup rest ih => simp [dispatchUnits, ih]

theorem dispatchUnits_mem (req : QuoteRequest) (now : Nat) (sups : List Supplier)
    (ctr : Nat) (q : Quote) (hq : q ∈ dispatchUnits req now sups ctr) :
    q.status = "pending" ∧ q.requestID = req.id ∧ ∃ s ∈ sups, q.supplierID = s.id := by
  induction sups generalizing ctr with
  | nil => simp [dispatchUnits] at hq
  | cons sup rest ih =>
    simp only [dispatchUnits, List.mem_cons] at hq
    rcases hq with rfl | hq
    · exact ⟨rfl, rfl, sup, List.mem_cons_self _ _, rfl⟩
    · obtain ⟨h1, h2, s, hsmem, h3⟩ := ih (ctr + 1) hq
      exact ⟨h1, h2, s, List.mem_cons_of_mem _ hsmem, h3⟩

theorem dispatchUnits_pairs (req : QuoteRequest) (now : Nat) (sups : List Supplier)
    (ctr : Nat) :
    (dispatchUnits req now sups ctr).map (fun q => (q.requestID, q.supplierID)) =
      sups.map fun s => (req.id, s.id) := by
  induction sups generalizing ctr with
  | nil => rfl
  | cons sup rest ih => simp [dispatchUnits, pendingUnit, ih]

/-- C1: if composing or sending fails for the k-th supplier (the first k-1
succeeding), `SendQuotes` returns an error immediately; the store afterwards
holds exactly the prior contents plus one pending unit per supplier 1..k-1 (no
rollback, no unit for supplier k), and the emitted events are exactly those of
suppliers 1..k-1 plus at most a compose for supplier k — suppliers k+1..n are
never attempted. -/
theorem sendQuotes_abort_on_first_error
    (compose : Supplier → Except String String)
    (send : String → String → Except String Unit) (msgOf : Supplier → String)
    (now : Nat) (req : QuoteRequest) (pre : List Supplier) (supK : Supplier)
    (post : List Supplier) (store : List Quote) (ctr : Nat)
    (hpre : ∀ s ∈ pre, compose s = .ok (msgOf s) ∧ send s.phone (msgOf s) = .ok ())
    (hfail : (∃ e, compose supK = .error e) ∨
      (compose supK = .ok (msgOf supK) ∧ ∃ e, send supK.phone (msgOf supK) = .error e)) :
    ∃ e tailEv, (tailEv = [] ∨ tailEv = [Event.composed supK.id]) ∧
      sendQuotes compose send now req (pre ++ supK :: post) store ctr =
        ⟨.error e, store ++ dispatchUnits req now pre ctr, ctr + pre.length,
          dispatchEvents req now msgOf pre ctr ++ tailEv⟩ := by
  induction pre generalizing store ctr with
  | nil =>
    rcases hfail with ⟨e, hc⟩ | ⟨hc, e, hs⟩
    · exact ⟨"compose message for " ++ supK.name ++ ": " ++ e, [], Or.inl rfl,
        by simp [sendQuotes, hc, dispatchUnits, dispatchEvents]⟩
    · exact ⟨"send to " ++ supK.name ++ ": " ++ e, [Event.composed supK.id], Or.inr rfl,
        by simp [sendQuotes, hc, hs, dispatchUnits, dispatchEvents]⟩
  | cons s rest ih =>
    obtain ⟨hc, hs⟩ := hpre s (List.mem_cons_self _ _)
    obtain ⟨e, tailEv, htail, heq⟩ :=
      ih (store ++ [pendingUnit req s now ctr]) (ctr + 1)
        (fun x hx => hpre x (List.mem_cons_of_mem _ hx))
    refine ⟨e, tailEv, htail, ?_⟩
    rw [List.cons_append]
    simp only [sendQuotes, hc, hs, createQuote_pendingUnit]
    rw [heq]
    simp only [dispatchUnits, dispatchEvents, List.length_cons, DispatchResult.mk.injEq]
    refine ⟨trivial, by simp, by omega, by simp⟩

/-- C2: a fully successful dispatch to N suppliers returns ok and creates
exactly N quote units, each with status "pending" and the request's id, and —
when the suppliers' ids are pairwise distinct — no two of the created units
share the same (request, supplier) pair. -/
theorem sendQuotes_n_pending_units
    (compose : Supplier → Except String String)
    (send : String → String → Except String Unit) (msgOf : Supplier → String)
    (now : Nat) (req : QuoteRequest) (sups : List Supplier)
    (store : List Quote) (ctr : Nat)
    (hok : ∀ s ∈ sups, compose s = .ok (msgOf s) ∧ send s.phone (msgOf s) = .ok ())
    (hdist : (sups.map Supplier.id).Nodup) :
    (sendQuotes compose send now req sups store ctr).res = .ok () ∧
    (sendQuotes compose send now req sups store ctr).store =
      store ++ dispatchUnits req now sups ctr ∧
    (dispatchUnits req now sups ctr).length = sups.length ∧
    (∀ q ∈ dispatchUnits req now sups ctr, q.status = "pending" ∧ q.requestID = req.id) ∧
    ((dispatchUnits req now sups ctr).map fun q => (q.requestID, q.supplierID)).Nodup := by
  rw [sendQuotes_all_ok compose send msgOf now req sups store ctr hok]
  refine ⟨rfl, rfl, dispatchUnits_length req now sups ctr, ?_, ?_⟩
  · intro q hq
    obtain ⟨h1, h2, _⟩ := dispatchUnits_mem req now sups ctr q hq
    exact ⟨h1, h2⟩
  · rw [dispatchUnits_pairs]
    have : (sups.map fun s => (req.id, s.id)) =
        (sups.map Supplier.id).map fun i => (req.id, i) := by
      simp
    rw [this]
    exact hdist.map fun a b hab => (Prod.mk.injEq _ _ _ _).mp hab |>.2

/-- Sample suppliers used to exercise the theorems on concrete inputs. -/
def supA : Supplier :=
  { id := "A", name := "Alfa", phone := "11111", city := "local",
    categories := ["cat1"], rating := 4, active := true }

def supB : Supplier :=
  { id := "B", name := "Beta", phone := "22222", city := "local",
    categories := ["cat2"], rating := 5, active := true }

def supC : Supplier :=
  { id := "C", name := "Gama", phone := "33333", city := "local",
    categories := ["cat1"], rating := 3, active := true }

/-- A sample quote request. -/
def reqSample : QuoteRequest :=
  { id := "r0", description := "cimento e areia",
    items := [{ name := "cimento", qty := 10, unit := "saco", note := "" }],
    urgent := false, timeout := 30 * timeMinute }

theorem sendQuotes_abort_on_first_error_witness :
    ∃ e tailEv, (tailEv = [] ∨ tailEv = [Event.composed supB.id]) ∧
      sendQuotes (fun s => if s.id = "B" then .error "down" else .ok "olá")
        (fun _ _ => .ok ()) 7 reqSample [supA, supB, supC] [] 0 =
        ⟨.error e, [] ++ dispatchUnits reqSample 7 [supA] 0, 0 + [supA].length,
          dispatchEvents reqSample 7 (fun _ => "olá") [supA] 0 ++ tailEv⟩ := by
  have h := sendQuotes_abort_on_first_error
    (fun s => if s.id = "B" then .error "down" else .ok "olá")
    (fun _ _ => .ok ()) (fun _ => "olá") 7 reqSample [supA] supB [supC] [] 0
    (by intro s hs; simp only [List.mem_singleton] at hs; subst hs
        exact ⟨by simp [supA], rfl⟩)
    (Or.inl ⟨"down", by simp [supB]⟩)
  simpa using h

theorem sendQuotes_n_pending_units_witness :
    (sendQuotes (fun _ => .ok "olá") (fun _ _ => .ok ()) 7 reqSample [supA, supB] [] 0).res =
      .ok () ∧
    (sendQuotes (fun _ => .ok "olá") (fun _ _ => .ok ()) 7 reqSample [supA, supB] [] 0).store =
      [] ++ dispatchUnits reqSample 7 [supA, supB] 0 ∧
    (dispatchUnits reqSample 7 [supA, supB] 0).length = [supA, supB].length ∧
    (∀ q ∈ dispatchUnits reqSample 7 [supA, supB] 0,
      q.status = "pending" ∧ q.requestID = reqSample.id) ∧
    ((dispatchUnits reqSample 7 [supA, supB] 0).map fun q =>
      (q.requestID, q.supplierID)).Nodup :=
  sendQuotes_n_pending_units (fun _ => .ok "olá") (fun _ _ => .ok ()) (fun _ => "olá")
    7 reqSample [supA, supB] [] 0
    (by intro s hs; exact ⟨rfl, rfl⟩)
    (by simp [supA, supB])

/-- `suppliers.MatchResult` (src/unnamed/part_003). -/
structure MatchResult where
  supplier : Supplier
  categories : List String
  reason : String
deriving Repr, DecidableEq

/-- One entry of the `matches` array the matching capability returns
(src/unnamed/part_003:88-91). -/
structure MatchEntry where
  supplierID : String
  reason : String
deriving Repr, DecidableEq

/-- The `supIndex` lookup of `Matcher.Match` (src/unnamed/part_003:117-121): a
Go map built by inserting every supplier of `all` in order, so a later entry
with the same id overwrites an earlier one. -/
def supIndexGet (all : List Supplier) (id : String) : Option Supplier :=
  all.foldl (fun acc s => if s.id = id then some s else acc) none

/-- The dedup-and-filter loop of `Matcher.Match` (src/unnamed/part_003:123-138):
skip an id already seen, skip an id absent from the directory index, otherwise
mark it seen and emit a `MatchResult` (the `Categories` field is left at its
zero value). -/
def matchLoop (all : List Supplier) (entries : List MatchEntry) (seen : List String) :
    List MatchResult :=
  match entries with
  | [] => []
  | e :: rest =>
    if e.supplierID ∈ seen then matchLoop all rest seen
    else
      match supIndexGet all e.supplierID with
      | none => matchLoop all rest seen
      | some sup =>
          { supplier := sup, categories := [], reason := e.reason } ::
            matchLoop all rest (e.supplierID :: seen)

/-- First-occurrence deduplication of a list of ids, skipping ids in `seen`. -/
def firstDedupFrom (seen : List String) : List String → List String
  | [] => []
  | a :: l => if a ∈ seen then firstDedupFrom seen l else a :: firstDedupFrom (a :: seen) l

theorem supIndexGet_id (all : List Supplier) (id : String) (sup : Supplier)
    (h : supIndexGet all id = some sup) : sup.id = id := by
  suffices H : ∀ (acc : Option Supplier),
      (∀ s, acc = some s → s.id = id) →
      all.foldl (fun acc s => if s.id = id then some s else acc) acc = some sup →
      sup.id = id by
    exact H none (by intro s hs; cases hs) h
  clear h
  induction all with
  | nil => intro acc hacc h; exact hacc sup h
  | cons a rest ih =>
    intro acc hacc h
    by_cases ha : a.id = id
    · exact ih (some a) (by intro s hs; cases hs; exact ha) (by simpa [ha] using h)
    · exact ih acc hacc (by simpa [ha] using h)

theorem matchLoop_ids (all : List Supplier) (entries : List MatchEntry)
    (seen : List String) :
    (matchLoop all entries seen).map (fun r => r.supplier.id) =
      firstDedupFrom seen
        ((entries.map MatchEntry.supplierID).filter
          fun i => (supIndexGet all i).isSome) := by
  induction entries generalizing seen with
  | nil => rfl
  | cons e rest ih =>
    by_cases hseen : e.supplierID ∈ seen
    · cases hknown : supIndexGet all e.supplierID with
      | none =>
          simp [matchLoop, hseen, hknown, firstDedupFrom, ih]
      | some sup =>
          simp [matchLoop, hseen, hknown, firstDedupFrom, ih]
    · cases hknown : supIndexGet all e.supplierID with
      | none =>
          simp [matchLoop, hseen, hknown, firstDedupFrom, ih]
      | some sup =>
          have hid := supIndexGet_id all e.supplierID sup hknown
          simp [matchLoop, hseen, hknown, firstDedupFrom, ih, hid]

theorem firstDedupFrom_nodup (l : List String) (seen : List String) :
    (firstDedupFrom seen l).Nodup ∧ ∀ a ∈ firstDedupFrom seen l, a ∉ seen := by
  induction l generalizing seen with
  | nil => exact ⟨List.nodup_nil, by intro a ha; cases ha⟩
  | cons b rest ih =>
    by_cases hb : b ∈ seen
    · simpa [firstDedupFrom, hb] using ih seen
    · obtain ⟨h1, h2⟩ := ih (b :: seen)
      refine ⟨?_, ?_⟩
      · simp only [firstDedupFrom, if_neg hb, List.nodup_cons]
        exact ⟨fun hmem => (h2 b hmem) (List.mem_cons_self _ _), h1⟩
      · intro a ha
        simp only [firstDedupFrom, if_neg hb, List.mem_cons] at ha
        rcases ha with rfl | ha
        · exact hb
        · exact fun hx => (h2 a ha) (List.mem_cons_of_mem _ hx)

/-- C6: the matcher's post-processing drops capability-returned identifiers
that are absent from the directory and drops repeated identifiers, keeping
first-seen order: the emitted ids are exactly the first-occurrence dedup of the
known ids in capability order (hence nodup); in particular, for capability
output [a, x, a, b] with x absent from the directory, the result is [a, b] in
that order, carrying each id's first-seen reason. -/
theorem match_drops_unknown_and_repeated :
    (∀ (all : List Supplier) (entries : List MatchEntry),
      (matchLoop all entries []).map (fun r => r.supplier.id) =
        firstDedupFrom [] ((entries.map MatchEntry.supplierID).filter
          fun i => (supIndexGet all i).isSome) ∧
      ((matchLoop all entries []).map fun r => r.supplier.id).Nodup) ∧
    matchLoop [supA, supB]
      [⟨"A", "ra"⟩, ⟨"X", "rx"⟩, ⟨"A", "ra2"⟩, ⟨"B", "rb"⟩] [] =
      [{ supplier := supA, categories := [], reason := "ra" },
       { supplier := supB, categories := [], reason := "rb" }] := by
  constructor
  · intro all entries
    refine ⟨matchLoop_ids all entries [], ?_⟩
    rw [matchLoop_ids]
    exact (firstDedupFrom_nodup _ _).1
  · decide

/-- One tool call of a model turn (src/unnamed/part_004).  `α` is the payload
type the call site's executor unmarshals the raw JSON arguments into. -/
structure ToolCall (α : Type) where
  id : String
  name : String
  args : α
deriving Repr

/-- One successful chat-completion choice (src/unnamed/part_004). -/
structure ModelTurn (α : Type) where
  content : String
  finishReason : String
  toolCalls : List (ToolCall α)
deriving Repr

/-- The tool-execution pass of one `ChatWithTools` iteration
(src/unnamed/part_004:96-105): every tool call runs through the executor in
order; an executor error is not propagated — it only becomes the tool message
fed back to the model ("error: ..."), which the script oracle already
abstracts — so only the threaded executor state survives. -/
def runTools {α σ : Type} (executor : σ → String → α → σ × Except String String)
    (s : σ) (calls : List (ToolCall α)) : σ :=
  calls.foldl (fun st c => (executor st c.name c.args).1) s

/-- `Client.ChatWithTools` (src/unnamed/part_004:68-107).  The external model
is an oracle `script`: one entry per API round trip, either a transport/API
failure (including the empty-choices "empty response" case) or a model turn.
The loop returns the turn's content once `finish_reason` is "stop" or the turn
has no tool calls; otherwise it executes the tools and iterates.  The Go loop
can only terminate through one of those two paths, so a run whose finite
script is exhausted is modelled as one that never completes successfully. -/
def chatWithTools {α σ : Type} (script : List (Except String (ModelTurn α)))
    (executor : σ → String → α → σ × Except String String) (s : σ) :
    Except String (String × σ) :=
  match script with
  | [] => .error "no terminating model turn"
  | .error e :: _ => .error ("openrouter api: " ++ e)
  | .ok turn :: rest =>
    if turn.finishReason = "stop" ∨ turn.toolCalls.isEmpty then .ok (turn.content, s)
    else chatWithTools rest executor (runTools executor s turn.toolCalls)

/-- The payload of the `compare_quotes` tool (src/unnamed/part_002:238-244). -/
structure CompareArgs where
  recommendation : String
  bestSupplierArg : String
  totalPriceArg : Int
  comparisonTable : String
deriving Repr, DecidableEq

/-- The executor closure of `CompareQuotes` (src/unnamed/part_002:238-255):
`none` embeds raw arguments that fail to unmarshal (the executor errors and
mutates nothing); otherwise the closed-over `result` is overwritten.  The tool
name is not inspected, exactly as in the source closure. -/
def compareExecutor (st : QuoteComparison) (_name : String)
    (args : Option CompareArgs) : QuoteComparison × Except String String :=
  match args with
  | none => (st, .error "unmarshal")
  | some r =>
      ({ recommendation := r.recommendation, bestSupplier := r.bestSupplierArg,
         totalPrice := r.totalPriceArg, table := r.comparisonTable }, .ok "ok")

/-- The fixed outcome `CompareQuotes` returns for an empty quote list
(src/unnamed/part_002:205-207): only `Recommendation` set, other fields at
their zero values. -/
def noQuotesOutcome : QuoteComparison :=
  { recommendation := "Nenhuma cotação recebida.", bestSupplier := "",
    totalPrice := 0, table := "" }

/-- `QuoteManager.CompareQuotes` (src/unnamed/part_002:204-261).  The second
component records whether the ranking capability (`ChatWithTools`) was
invoked.  `result` starts at the Go zero value and is only written by the
executor, so a successful capability run that never invokes the tool with
parseable input yields the zero-valued comparison. -/
def compareQuotes (script : List (Except String (ModelTurn (Option CompareArgs))))
    (req : QuoteRequest) (quotes : List Quote) :
    Except String QuoteComparison × Bool :=
  match quotes with
  | [] => (.ok noQuotesOutcome, false)
  | _ :: _ =>
    match chatWithTools script compareExecutor default with
    | .error e => (.error ("compare quotes: " ++ e), true)
    | .ok (_, st) => (.ok st, true)

/-- C7: for every quote request, `CompareQuotes` on an empty received set
returns the fixed "no quotes received" outcome and does not invoke the
ranking capability, whatever that capability would have answered. -/
theorem compareQuotes_empty_fixed_outcome :
    ∀ (script : List (Except String (ModelTurn (Option CompareArgs))))
      (req : QuoteRequest),
      compareQuotes script req [] = (.ok noQuotesOutcome, false) :=
  fun _ _ => rfl

/-- C8: on a non-empty received set, whenever the ranking capability completes
without a transport failure, `CompareQuotes` returns a defined, non-error
comparison — the capability's final executor state — even when the tool was
never invoked or its input failed to parse, in which case that state is the
zero-valued record. -/
theorem compareQuotes_degenerate_ok
    (script : List (Except String (ModelTurn (Option CompareArgs))))
    (req : QuoteRequest) (quotes : List Quote) (out : String × QuoteComparison)
    (hne : quotes ≠ [])
    (hok : chatWithTools script compareExecutor default = .ok out) :
    compareQuotes script req quotes = (.ok out.2, true) := by
  cases quotes with
  | nil => exact absurd rfl hne
  | cons q qs => simp [compareQuotes, hok]

/-- A sample received quote unit. -/
def quoteSample : Quote :=
  { id := "q0", requestID := "r0", supplierID := "A", items := [],
    response := "100 reais o saco", price := 0, status := "received",
    createdAt := 7, respondedAt := some 8 }

/-- A capability run that calls the comparison tool once with unparseable
arguments and then stops without a usable answer. -/
def degenerateScript : List (Except String (ModelTurn (Option CompareArgs))) :=
  [.ok { content := "", finishReason := "tool_calls",
         toolCalls := [{ id := "t1", name := "compare_quotes", args := none }] },
   .ok { content := "sem dados", finishReason := "stop", toolCalls := [] }]

theorem compareQuotes_degenerate_ok_witness :
    compareQuotes degenerateScript reqSample [quoteSample] =
      (.ok { recommendation := "", bestSupplier := "", totalPrice := 0, table := "" },
        true) := by
  have h := compareQuotes_degenerate_ok degenerateScript reqSample [quoteSample]
    ("sem dados",
      { recommendation := "", bestSupplier := "", totalPrice := 0, table := "" })
    (by simp) (by rfl)
  simpa using h

/-- Modelled from the spec: `Store.ByPhone` is called by `handleIncoming`
(src/comprador/agent.go:82) but its definition is absent from src/.  Spec §4.2
says the correlator must "resolve the sender address to a Counterparty via the
directory", so it is embedded as the directory lookup of a supplier by contact
address. -/
def byPhone (directory : List Supplier) (phone : String) : Option Supplier :=
  directory.find? fun s => s.phone == phone

/-- Modelled from the spec: `QuoteStore.UpdateBySupplier` is called by
`handleIncoming` (src/comprador/agent.go:87) but its definition is absent from
src/.  Spec §4.2 says: "update the most relevant pending Quote Unit for that
counterparty to status received and store the reply text", with disambiguation
policy (a): the single most recently created pending unit for that
counterparty (the last one in insertion order).  The row update itself reuses
`UpdateQuoteResponse` (src/comprador/suppliers/store.go:191-198); no price is
parsed from the reply.  A reply with no pending unit updates no row. -/
def updateBySupplier (store : List Quote) (supplierID msg : String) (now : Nat) :
    List Quote :=
  match (store.filter fun q => q.supplierID == supplierID && q.status == "pending").getLast? with
  | none => store
  | some q => updateQuoteResponse store q.id msg 0 now

/-- `Agent.handleIncoming` (src/comprador/agent.go:81-90): resolve the sender
address; an unknown sender is ignored; a known sender's message body is
recorded on one of their quote units.  The Go function returns nothing — the
update error is only printed — so the embedding returns the new store and has
no error outcome at all. -/
def handleIncoming (directory : List Supplier) (store : List Quote)
    (sender msg : String) (now : Nat) : List Quote :=
  match byPhone directory sender with
  | none => store
  | some sup => updateBySupplier store sup.id msg now

theorem mem_of_getLast?_eq {α : Type} {l : List α} {a : α}
    (h : l.getLast? = some a) : a ∈ l := by
  have hx : a ∈ l.getLast? := h
  obtain ⟨hne, rfl⟩ := List.mem_getLast?_eq_getLast hx
  exact List.getLast_mem hne

theorem map_eq_self_of_forall {α : Type} (l : List α) (f : α → α)
    (h : ∀ x ∈ l, f x = x) : l.map f = l := by
  induction l with
  | nil => rfl
  | cons a rest ih =>
    simp only [List.map_cons, h a (List.mem_cons_self _ _), List.cons.injEq, true_and]
    exact ih fun x hx => h x (List.mem_cons_of_mem _ hx)

/-- C5: an inbound message whose sender address does not resolve to a supplier
in the directory leaves the store's quote units unchanged (and, the embedding
having no error outcome, returns without error). -/
theorem handleIncoming_unknown_sender (directory : List Supplier)
    (store : List Quote) (sender msg : String) (now : Nat)
    (h : byPhone directory sender = none) :
    handleIncoming directory store sender msg now = store := by
  simp [handleIncoming, h]

theorem handleIncoming_unknown_sender_witness :
    handleIncoming [supA, supB] [quoteSample] "99999" "bom dia" 9 = [quoteSample] :=
  handleIncoming_unknown_sender [supA, supB] [quoteSample] "99999" "bom dia" 9 (by decide)

/-- C4: an inbound message whose sender resolves to a known supplier, while
that supplier has a pending quote unit and quote ids are unique (the store's
primary key), rewrites exactly one position of the store: one quote unit of
that supplier goes from "pending" to "received" with the message body stored
verbatim as its response, and every other unit is untouched. -/
theorem handleIncoming_known_sender (directory : List Supplier)
    (store : List Quote) (sender msg : String) (now : Nat) (sup : Supplier)
    (hres : byPhone directory sender = some sup)
    (hnodup : (store.map Quote.id).Nodup)
    (hpending :
      store.filter (fun q => q.supplierID == sup.id && q.status == "pending") ≠ []) :
    ∃ pre q post, store = pre ++ q :: post ∧
      q.supplierID = sup.id ∧ q.status = "pending" ∧
      handleIncoming directory store sender msg now =
        pre ++ { q with response := msg, price := 0, status := "received",
                        respondedAt := some now } :: post := by
  set p : Quote → Bool := fun q => q.supplierID == sup.id && q.status == "pending" with hp
  obtain ⟨q0, hlast⟩ :=
    Option.ne_none_iff_exists'.mp
      (fun hnone => hpending (List.getLast?_eq_none_iff.mp hnone))
  have hq0mem : q0 ∈ store.filter p := mem_of_getLast?_eq hlast
  have hq0p : p q0 = true := List.of_mem_filter hq0mem
  have hq0store : q0 ∈ store := List.mem_of_mem_filter hq0mem
  obtain ⟨hsupid, hstatus⟩ := by
    have := hq0p
    rw [hp] at this
    simp only [Bool.and_eq_true, beq_iff_eq] at this
    exact this
  obtain ⟨pre, post, hsplit⟩ := List.append_of_mem hq0store
  refine ⟨pre, q0, post, hsplit, hsupid, hstatus, ?_⟩
  have hids : ∀ r ∈ pre ++ post, r.id ≠ q0.id := by
    intro r hr
    rw [hsplit, List.map_append, List.map_cons] at hnodup
    rw [List.nodup_append] at hnodup
    obtain ⟨_, hmid, hdisj⟩ := hnodup
    rcases List.mem_append.mp hr with hrp | hrp
    · intro heq
      exact hdisj (List.mem_map_of_mem Quote.id hrp)
        (heq ▸ List.mem_cons_self _ _)
    · intro heq
      rw [List.nodup_cons] at hmid
      exact hmid.1 (heq ▸ List.mem_map_of_mem Quote.id hrp)
  have hrun : handleIncoming directory store sender msg now =
      updateQuoteResponse store q0.id msg 0 now := by
    simp [handleIncoming, hres, updateBySupplier, ← hp, hlast]
  rw [hrun, hsplit, updateQuoteResponse, List.map_append, List.map_cons, if_pos rfl]
  congr 1
  · exact map_eq_self_of_forall _ _ fun r hr =>
      if_neg (hids r (List.mem_append.mpr (Or.inl hr)))
  · congr 1
    exact map_eq_self_of_forall _ _ fun r hr =>
      if_neg (hids r (List.mem_append.mpr (Or.inr hr)))

theorem handleIncoming_known_sender_witness :
    ∃ pre q post,
      [quoteSample, pendingUnit reqSample supA 7 1] = pre ++ q :: post ∧
      q.supplierID = supA.id ∧ q.status = "pending" ∧
      handleIncoming [supA, supB] [quoteSample, pendingUnit reqSample supA 7 1]
          supA.phone "sai por 500 reais" 9 =
        pre ++ { q with response := "sai por 500 reais", price := 0,
                        status := "received", respondedAt := some 9 } :: post :=
  handleIncoming_known_sender [supA, supB]
    [quoteSample, pendingUnit reqSample supA 7 1] supA.phone "sai por 500 reais" 9 supA
    (by decide) (by decide) (by decide)

/-- The received-count pass of the poll loop (src/comprador/agent.go:168-173). -/
def receivedCount (quotes : List Quote) : Nat :=
  (quotes.filter fun q => q.status == "received").length

/-- The bounded polling loop of `Agent.Quote` (src/comprador/agent.go:161-181).
The store is mutated concurrently by the response correlator, so the outcome
of `qStore.PendingByRequest(req.ID)` at each instant is an oracle `read`;
`time.Now()` is a tick count and `time.Sleep(10 * time.Second)` advances it by
exactly the sleep amount.  While before the deadline the loop re-reads; it
exits early as soon as the received count reaches `expected`; a store read
error is returned as the error of `Quote`.  The result is the tick at which
the loop stopped (or the read error that aborted it); the companion
`pollCount` below counts the store reads of the very same traversal. -/
def waitLoop (read : Nat → Except String (List Quote))
    (expected deadline now : Nat) : Except String Nat :=
  if _h : now < deadline then
    match read now with
    | .error e => .error e
    | .ok quotes =>
      if receivedCount quotes = expected then .ok now
      else waitLoop read expected deadline (now + 10 * timeSecond)
  else .ok now
termination_by deadline - now
decreasing_by simp [timeSecond]; omega

/-- How many times the poll loop of src/comprador/agent.go:161-181 reads the
store: one read per iteration, none when the deadline already passed. -/
def pollCount (read : Nat → Except String (List Quote))
    (expected deadline now : Nat) : Nat :=
  if _h : now < deadline then
    match read now with
    | .error _ => 1
    | .ok quotes =>
      if receivedCount quotes = expected then 1
      else pollCount read expected deadline (now + 10 * timeSecond) + 1
  else 0
termination_by deadline - now
decreasing_by simp [timeSecond]; omega

/-- The post-wait snapshot of `Agent.Quote` (src/comprador/agent.go:185-191):
one more `PendingByRequest` read — its error explicitly discarded, leaving nil
quotes — filtered down to the units with status "received". -/
def finalSnapshot (read : Nat → Except String (List Quote)) (t : Nat) : List Quote :=
  (match read t with
   | .error _ => []
   | .ok qs => qs).filter fun q => q.status == "received"

/-- C3: when every store read succeeds, the wait loop terminates with an ok
tick — never an error on timeout — and that tick is the first poll instant at
which either the received count equals the expected count (strictly before the
deadline, an early exit) or the deadline has been reached, whichever comes
first; every earlier poll instant was before the deadline with a received
count still short of expected, and the loop read the store exactly once per
poll instant (k+1 reads on early exit after k re-polls, k on timeout).  The
subsequent snapshot is whatever subset of that instant's units is
"received". -/
theorem waitLoop_stops_at_first_condition
    (read : Nat → Except String (List Quote)) (qsAt : Nat → List Quote)
    (expected deadline now : Nat)
    (hread : ∀ t, read t = .ok (qsAt t)) :
    ∃ k,
      waitLoop read expected deadline now = .ok (now + k * (10 * timeSecond)) ∧
      ((now + k * (10 * timeSecond) < deadline ∧
          receivedCount (qsAt (now + k * (10 * timeSecond))) = expected ∧
          pollCount read expected deadline now = k + 1) ∨
        (deadline ≤ now + k * (10 * timeSecond) ∧
          pollCount read expected deadline now = k)) ∧
      (∀ j < k, now + j * (10 * timeSecond) < deadline ∧
        receivedCount (qsAt (now + j * (10 * timeSecond))) ≠ expected) ∧
      finalSnapshot read (now + k * (10 * timeSecond)) =
        (qsAt (now + k * (10 * timeSecond))).filter fun q => q.status == "received" := by
  generalize hfuel : deadline - now = fuel
  induction fuel using Nat.strong_induction_on generalizing now with
  | _ fuel ih =>
    by_cases h : now < deadline
    · by_cases hcnt : receivedCount (qsAt now) = expected
      · have hstop : waitLoop read expected deadline now = .ok now := by
          rw [waitLoop, dif_pos h, hread now]
          simp only [if_pos hcnt]
        have hpoll : pollCount read expected deadline now = 1 := by
          rw [pollCount, dif_pos h, hread now]
          simp only [if_pos hcnt]
        refine ⟨0, by simpa using hstop, ?_,
          by intro j hj; exact absurd hj (Nat.not_lt_zero j),
          by simp [finalSnapshot, hread]⟩
        left
        exact ⟨by simpa using h, by simpa using hcnt, hpoll⟩
      · have hstep : deadline - (now + 10 * timeSecond) < fuel := by
          simp only [timeSecond] at *
          omega
        obtain ⟨k, hk1, hk2, hk3, hk4⟩ :=
          ih (deadline - (now + 10 * timeSecond)) hstep (now + 10 * timeSecond) rfl
        have hunf : waitLoop read expected deadline now =
            waitLoop read expected deadline (now + 10 * timeSecond) := by
          rw [waitLoop, dif_pos h, hread now]
          simp only [if_neg hcnt]
        have hpoll : pollCount read expected deadline now =
            pollCount read expected deadline (now + 10 * timeSecond) + 1 := by
          rw [pollCount, dif_pos h, hread now]
          simp only [if_neg hcnt]
        have harith : now + 10 * timeSecond + k * (10 * timeSecond) =
            now + (k + 1) * (10 * timeSecond) := by ring
        refine ⟨k + 1, ?_, ?_, ?_, ?_⟩
        · rw [hunf, ← harith]
          exact hk1
        · rcases hk2 with ⟨h1, h2, h3⟩ | ⟨h1, h3⟩
          · left
            exact ⟨by rw [← harith]; exact h1, by rw [← harith]; exact h2,
              by rw [hpoll, h3]⟩
          · right
            exact ⟨by rw [← harith]; exact h1, by rw [hpoll, h3]⟩
        · intro j hj
          cases j with
          | zero => simpa using ⟨h, hcnt⟩
          | succ j =>
            have hjk := hk3 j (by omega)
            have harithj : now + 10 * timeSecond + j * (10 * timeSecond) =
                now + (j + 1) * (10 * timeSecond) := by ring
            rw [harithj] at hjk
            exact hjk
        · rw [← harith]
          exact hk4
    · have hstop : waitLoop read expected deadline now = .ok now := by
        rw [waitLoop, dif_neg h]
      have hpoll : pollCount read expected deadline now = 0 := by
        rw [pollCount, dif_neg h]
      refine ⟨0, by simpa using hstop, ?_,
        by intro j hj; exact absurd hj (Nat.not_lt_zero j),
        by simp [finalSnapshot, hread]⟩
      right
      exact ⟨by omega, hpoll⟩

theorem waitLoop_stops_at_first_condition_witness :
    ∃ k,
      waitLoop (fun _ => .ok []) 0 (5 * timeSecond) 0 =
        .ok (0 + k * (10 * timeSecond)) ∧
      ((0 + k * (10 * timeSecond) < 5 * timeSecond ∧
          receivedCount [] = 0 ∧
          pollCount (fun _ => .ok []) 0 (5 * timeSecond) 0 = k + 1) ∨
        (5 * timeSecond ≤ 0 + k * (10 * timeSecond) ∧
          pollCount (fun _ => .ok []) 0 (5 * timeSecond) 0 = k)) ∧
      (∀ j < k, 0 + j * (10 * timeSecond) < 5 * timeSecond ∧
        receivedCount [] ≠ 0) ∧
      finalSnapshot (fun _ => .ok []) (0 + k * (10 * timeSecond)) =
        List.filter (fun q => q.status == "received") [] :=
  waitLoop_stops_at_first_condition (fun _ => .ok []) (fun _ => []) 0
    (5 * timeSecond) 0 (fun _ => rfl)

/-- `comprador.Config` (src/comprador/agent.go:16-21). -/
structure Config where
  city : String
  quoteTimeout : Nat
  dryRun : Bool
  whatsAppDB : String
deriving Repr, DecidableEq

/-- `comprador.DefaultConfig` (src/comprador/agent.go:24-31). -/
def defaultConfig : Config :=
  { city := "local", quoteTimeout := 30 * timeMinute, dryRun := true,
    whatsAppDB := "data/whatsapp.db" }

/-- The timeout selection at the top of `Agent.Quote`
(src/comprador/agent.go:93-97): urgent mode replaces the configured timeout
with a fixed 5 minutes. -/
def effectiveTimeout (cfg : Config) (urgent : Bool) : Nat :=
  if urgent then 5 * timeMinute else cfg.quoteTimeout

/-- C9 counterexample: with a configured quote timeout of 1 minute, the
urgent-mode deadline (the fixed 5 minutes) is not shorter than the deadline
derived from the configured timeout — it is five times longer. -/
theorem effectiveTimeout_urgent_not_always_shorter :
    ¬ (effectiveTimeout { defaultConfig with quoteTimeout := timeMinute } true <
       effectiveTimeout { defaultConfig with quoteTimeout := timeMinute } false) := by
  norm_num [effectiveTimeout, timeMinute, timeSecond]

/-- C9 (amended): with the urgent flag set, the wait deadline applied is the
fixed 5-minute timeout, independent of the configuration; it is strictly
shorter than the deadline derived from the request's configured (non-urgent)
timeout exactly when that configured timeout exceeds 5 minutes — which the
30-minute library default does. -/
theorem effectiveTimeout_urgent_fixed_five_minutes :
    (∀ cfg : Config, effectiveTimeout cfg true = 5 * timeMinute) ∧
    (∀ cfg : Config, 5 * timeMinute < cfg.quoteTimeout →
      effectiveTimeout cfg true < effectiveTimeout cfg false) ∧
    effectiveTimeout defaultConfig true < effectiveTimeout defaultConfig false := by
  refine ⟨fun cfg => by simp [effectiveTimeout], fun cfg h => ?_, ?_⟩
  · simpa [effectiveTimeout] using h
  · norm_num [effectiveTimeout, defaultConfig, timeMinute, timeSecond]

theorem effectiveTimeout_urgent_fixed_five_minutes_witness :
    5 * timeMinute < defaultConfig.quoteTimeout ∧
    effectiveTimeout defaultConfig true < effectiveTimeout defaultConfig false :=
  ⟨by norm_num [defaultConfig, timeMinute, timeSecond],
   effectiveTimeout_urgent_fixed_five_minutes.2.1 defaultConfig
     (by norm_num [defaultConfig, timeMinute, timeSecond])⟩

/-- The external collaborators one `Agent.Quote` run consumes
(src/comprador/agent.go:93-217): `parse` is the items result of
`ParseRequest` (a Claude call), `matched` the result of `Matcher.Match` (a
Claude call over the directory), `compose` and `send` the per-supplier message
composition and WhatsApp send used by `SendQuotes`, `read` the oracle for
`PendingByRequest` reads during the poll loop (the store is concurrently
mutated by the correlator), and `compareScript` the ranking capability's model
turns for `CompareQuotes`. -/
structure QuoteEnv where
  parse : Except String (List ParsedItem)
  matched : Except String (List MatchResult)
  compose : Supplier → Except String String
  send : String → String → Except String Unit
  read : Nat → Except String (List Quote)
  compareScript : List (Except String (ModelTurn (Option CompareArgs)))

/-- The agent-owned persistent state `Quote` can touch: the quotes table, the
purchase memory, and the uuid counter of the embedding. -/
structure AgentState where
  qStore : List Quote
  memStore : List PurchaseRecord
  ctr : Nat
deriving Repr

/-- Outcome of one `Agent.Quote` run: the Go `error` return, the state
afterwards, and the observable events in order. -/
structure QuoteRunResult where
  res : Except String Unit
  state : AgentState
  events : List Event
deriving Repr

/-- `Agent.Quote` (src/comprador/agent.go:93-217): choose the (possibly
urgent) timeout, parse the request, match suppliers (an empty match returns
nil without dispatching), dispatch via `SendQuotes` (its error propagates, the
partially written store kept), then — unless `DryRun`, which returns nil right
after dispatch — poll the store until the deadline, snapshot the received
units (returning nil when none), run `CompareQuotes` and save a purchase
record to memory (the save error is discarded, and the in-memory append
cannot fail). -/
def quote (cfg : Config) (env : QuoteEnv) (now : Nat) (st : AgentState)
    (description : String) (urgent : Bool) : QuoteRunResult :=
  let timeout := effectiveTimeout cfg urgent
  match env.parse with
  | .error e => ⟨.error ("analisar pedido: " ++ e), st, []⟩
  | .ok items =>
    let req : QuoteRequest :=
      { id := "q" ++ toString st.ctr, description := description, items := items,
        urgent := urgent, timeout := timeout }
    let itemNames := items.map ParsedItem.name
    match env.matched with
    | .error e => ⟨.error ("buscar fornecedores: " ++ e), st, []⟩
    | .ok sups =>
      if sups.isEmpty then ⟨.ok (), st, []⟩
      else
        let supList := sups.map MatchResult.supplier
        let d := sendQuotes env.compose env.send now req supList st.qStore (st.ctr + 1)
        match d.res with
        | .error e =>
            ⟨.error ("enviar cotações: " ++ e),
              { st with qStore := d.store, ctr := d.ctr }, d.events⟩
        | .ok _ =>
          let st1 : AgentState := { st with qStore := d.store, ctr := d.ctr }
          if cfg.dryRun then ⟨.ok (), st1, d.events⟩
          else
            let deadline := now + timeout
            let pollEvents :=
              List.replicate (pollCount env.read supList.length deadline now)
                (Event.polled req.id)
            match waitLoop env.read supList.length deadline now with
            | .error e => ⟨.error e, st1, d.events ++ pollEvents⟩
            | .ok t =>
              let received := finalSnapshot env.read t
              if received.isEmpty then ⟨.ok (), st1, d.events ++ pollEvents⟩
              else
                match compareQuotes env.compareScript req received with
                | (.error e, _) =>
                    ⟨.error ("comparar cotações: " ++ e), st1,
                      d.events ++ pollEvents ++ [.compared req.id]⟩
                | (.ok comp, _) =>
                  let record : PurchaseRecord :=
                    { description := description, items := itemNames,
                      chosenSupplier := comp.bestSupplier,
                      totalPrice := comp.totalPrice }
                  ⟨.ok (), { st1 with memStore := st1.memStore ++ [record] },
                    d.events ++ pollEvents ++ [.compared req.id, .savedMemory record]⟩

theorem dispatchEvents_shape (req : QuoteRequest) (now : Nat)
    (msgOf : Supplier → String) (sups : List Supplier) (ctr : Nat) :
    ∀ e ∈ dispatchEvents req now msgOf sups ctr,
      (∃ i, e = Event.composed i) ∨ (∃ p m, e = Event.sent p m) ∨
        ∃ q, e = Event.createdQuote q := by
  induction sups generalizing ctr with
  | nil => intro e he; cases he
  | cons sup rest ih =>
    intro e he
    simp only [dispatchEvents, List.mem_cons] at he
    rcases he with rfl | rfl | rfl | he
    · exact Or.inl ⟨sup.id, rfl⟩
    · exact Or.inr (Or.inl ⟨sup.phone, msgOf sup, rfl⟩)
    · exact Or.inr (Or.inr ⟨pendingUnit req sup now ctr, rfl⟩)
    · exact ih (ctr + 1) e he

/-- C10: with `DryRun` set — as the library default configuration has it —
and a successful parse, match and dispatch, `Quote` returns success
immediately after dispatch: the final state keeps the purchase memory
untouched and appends exactly the dispatched pending units to the quote
store, and the run's events are exactly the dispatch events — which contain
no store poll, no ranking-capability invocation and no memory save. -/
theorem quote_dry_run_stops_after_dispatch
    (cfg : Config) (env : QuoteEnv) (now : Nat) (st : AgentState)
    (description : String) (urgent : Bool) (items : List ParsedItem)
    (sups : List MatchResult) (msgOf : Supplier → String)
    (hdry : cfg.dryRun = true)
    (hparse : env.parse = .ok items)
    (hmatch : env.matched = .ok sups)
    (hne : sups ≠ [])
    (hok : ∀ s ∈ sups.map MatchResult.supplier,
      env.compose s = .ok (msgOf s) ∧ env.send s.phone (msgOf s) = .ok ()) :
    quote cfg env now st description urgent =
      ⟨.ok (),
        { qStore := st.qStore ++
            dispatchUnits
              { id := "q" ++ toString st.ctr, description := description,
                items := items, urgent := urgent,
                timeout := effectiveTimeout cfg urgent }
              now (sups.map MatchResult.supplier) (st.ctr + 1),
          memStore := st.memStore,
          ctr := st.ctr + 1 + (sups.map MatchResult.supplier).length },
        dispatchEvents
          { id := "q" ++ toString st.ctr, description := description,
            items := items, urgent := urgent,
            timeout := effectiveTimeout cfg urgent }
          now msgOf (sups.map MatchResult.supplier) (st.ctr + 1)⟩ ∧
    (∀ e ∈ dispatchEvents
        { id := "q" ++ toString st.ctr, description := description,
          items := items, urgent := urgent,
          timeout := effectiveTimeout cfg urgent }
        now msgOf (sups.map MatchResult.supplier) (st.ctr + 1),
      (∀ rid, e ≠ Event.polled rid) ∧ (∀ rid, e ≠ Event.compared rid) ∧
        ∀ r, e ≠ Event.savedMemory r) ∧
    defaultConfig.dryRun = true := by
  have hempty : sups.isEmpty = false := by
    cases sups with
    | nil => exact absurd rfl hne
    | cons a l => rfl
  refine ⟨?_, ?_, rfl⟩
  · simp only [quote, hparse, hmatch, hempty, Bool.false_eq_true, if_false,
      sendQuotes_all_ok env.compose env.send msgOf now _ _ st.qStore (st.ctr + 1) hok,
      hdry, if_true]
  · intro e he
    rcases dispatchEvents_shape _ _ _ _ _ e he with ⟨i, rfl⟩ | ⟨p, m, rfl⟩ | ⟨q, rfl⟩ <;>
      simp

/-- A sample parsed item and matched supplier for exercising `quote`. -/
def itemSample : ParsedItem := { name := "cimento", qty := 10, unit := "saco", note := "" }

def matchSample : MatchResult :=
  { supplier := supA, categories := [], reason := "vende cimento" }

/-- A sample environment: parse and match succeed, composition and sending
succeed, the store stays empty, the ranking capability is never consulted. -/
def quoteEnvSample : QuoteEnv :=
  { parse := .ok [itemSample]
    matched := .ok [matchSample]
    compose := fun _ => .ok "olá"
    send := fun _ _ => .ok ()
    read := fun _ => .ok []
    compareScript := [] }

theorem quote_dry_run_stops_after_dispatch_witness :
    quote defaultConfig quoteEnvSample 7 ⟨[], [], 0⟩ "500 sacos de cimento" false =
      ⟨.ok (),
        { qStore := [] ++
            dispatchUnits
              { id := "q" ++ toString (0 : Nat), description := "500 sacos de cimento",
                items := [itemSample], urgent := false,
                timeout := effectiveTimeout defaultConfig false }
              7 ([matchSample].map MatchResult.supplier) (0 + 1),
          memStore := [],
          ctr := 0 + 1 + ([matchSample].map MatchResult.supplier).length },
        dispatchEvents
          { id := "q" ++ toString (0 : Nat), description := "500 sacos de cimento",
            items := [itemSample], urgent := false,
            timeout := effectiveTimeout defaultConfig false }
          7 (fun _ => "olá") ([matchSample].map MatchResult.supplier) (0 + 1)⟩ ∧
    (∀ e ∈ dispatchEvents
        { id := "q" ++ toString (0 : Nat), description := "500 sacos de cimento",
          items := [itemSample], urgent := false,
          timeout := effectiveTimeout defaultConfig false }
        7 (fun _ => "olá") ([matchSample].map MatchResult.supplier) (0 + 1),
      (∀ rid, e ≠ Event.polled rid) ∧ (∀ rid, e ≠ Event.compared rid) ∧
        ∀ r, e ≠ Event.savedMemory r) ∧
    defaultConfig.dryRun = true :=
  quote_dry_run_stops_after_dispatch defaultConfig quoteEnvSample 7 ⟨[], [], 0⟩
    "500 sacos de cimento" false [itemSample] [matchSample] (fun _ => "olá")
    rfl rfl rfl (by simp) (by intro s hs; exact ⟨rfl, rfl⟩)

end Agente
